import Mathlib

/-!
Verification development for the image-reference quota engine.

The Go sources are shallowly embedded: Go maps and string sets become
association lists and duplicate-free lists iterated in a fixed order,
machine integers (int, int64, resource.Quantity values) become Int, and
fallible calls become Except/parameters carrying the call result.
Functions from pkg/image/api (reference parsing and normalisation),
k8s.io sets/quota helpers and cache.MetaNamespaceKeyFunc are not part of
the provided sources; those are modelled from the specification and are
marked accordingly in their doc comments.  Everything else is translated
directly from the Go sources (pkg/quota/image, pkg/image/admission,
pkg/dockerregistry/server).
-/

deriving instance DecidableEq for Except

/-- Splits a list of characters at every occurrence of the separator
character, keeping empty segments, like strings.Split in Go. -/
def splitOnChar (c : Char) : List Char → List (List Char)
  | [] => [[]]
  | x :: xs =>
    let rest := splitOnChar c xs
    if x == c then [] :: rest
    else
      match rest with
      | r :: rs => (x :: r) :: rs
      | [] => [[x]]

/-- Components of a docker image reference.  The Go struct is
imageapi.DockerImageReference with fields Registry, Namespace, Name, Tag
and ID; `ns` stands for the Namespace field (a Lean keyword). -/
structure DockerImageReference where
  registry : String
  ns : String
  name : String
  tag : String
  id : String
deriving DecidableEq

/-- Modelled from the spec: splitting a pull spec into repository, tag
and digest parts.  The digest is what follows the first at-sign; failing
that, the tag is what follows the last colon provided no slash follows
it (so a registry port is not mistaken for a tag). -/
def parseRepositoryTag (s : String) : String × String × String :=
  if s.data.contains '@' then
    match splitOnChar '@' s.data with
    | repo :: dig :: _ => (String.mk repo, "", String.mk dig)
    | _ => (s, "", "")
  else
    let parts := splitOnChar ':' s.data
    match parts.reverse with
    | last :: (_ :: _ : List (List Char)) =>
      if last.contains '/' then (s, "", "")
      else (String.intercalate ":" (parts.dropLast.map String.mk), String.mk last, "")
    | _ => (s, "", "")

/-- Modelled from the spec: parsing a docker image reference such as
host/ns/repo:tag or host/ns/repo at a digest.  A leading component
containing a dot or a colon, or equal to localhost, is a registry.
The corresponding Go function is imageapi.ParseDockerImageReference,
absent from the provided sources. -/
def parseDockerImageReference (spec : String) : Except String DockerImageReference :=
  let (stream, tag, id) := parseRepositoryTag spec
  match (splitOnChar '/' stream.data).map String.mk with
  | [name] =>
    if name == "" then .error ("invalid image reference " ++ spec)
    else .ok ⟨"", "", name, tag, id⟩
  | [a, name] =>
    if a.data.contains '.' || a.data.contains ':' || a == "localhost" then
      .ok ⟨a, "", name, tag, id⟩
    else
      .ok ⟨"", a, name, tag, id⟩
  | [r, n, name] => .ok ⟨r, n, name, tag, id⟩
  | _ => .error ("invalid image reference " ++ spec)

/-- Modelled from the spec: the registries recognised as docker hub. -/
def isRegistryDockerHub (registry : String) : Bool :=
  registry == "docker.io" || registry == "index.docker.io" || registry == "registry-1.docker.io"

/-- Modelled from the spec: docker-client defaults.  An empty registry
becomes docker.io and an empty namespace on a docker-hub registry
becomes library.  The Go method is DockerImageReference.DockerClientDefaults. -/
def dockerClientDefaults (r : DockerImageReference) : DockerImageReference :=
  let reg := if r.registry == "" then "docker.io" else r.registry
  let n := if r.ns == "" && isRegistryDockerHub reg then "library" else r.ns
  { r with registry := reg, ns := n }

/-- Modelled from the spec: the daemon-minimal trim.  Docker-hub registry
aliases collapse to docker.io, the default library namespace on the hub
is dropped, and a latest tag combined with no digest is dropped.  The Go
method is DockerImageReference.DaemonMinimal. -/
def daemonMinimal (r : DockerImageReference) : DockerImageReference :=
  let reg := if isRegistryDockerHub r.registry then "docker.io" else r.registry
  let n := if isRegistryDockerHub reg && r.ns == "library" then "" else r.ns
  let tag := if r.tag == "latest" && r.id == "" then "" else r.tag
  { r with registry := reg, ns := n, tag := tag }

/-- Modelled from the spec: the exact string form of a reference; every
nonempty component is rendered.  The Go method is DockerImageReference.Exact. -/
def DockerImageReference.exact (r : DockerImageReference) : String :=
  (if r.registry == "" then "" else r.registry ++ "/") ++
    (if r.ns == "" then "" else r.ns ++ "/") ++
    r.name ++
    (if r.tag == "" then "" else ":" ++ r.tag) ++
    (if r.id == "" then "" else "@" ++ r.id)

/-- Modelled from the spec: parsing an image stream tag name of the form
isName:tag.  The tag is mandatory and a digest may not be present.  The
Go function is imageapi.ParseImageStreamTagName. -/
def parseImageStreamTagName (istag : String) : Except String (String × String) :=
  if istag.data.contains '@' then
    .error (istag ++ " is an image stream image, not an image stream tag")
  else
    match (splitOnChar ':' istag.data).map String.mk with
    | [name, tag] =>
      if name == "" || tag == "" then
        .error ("image stream tag name " ++ istag ++ " must have a name and a tag")
      else .ok (name, tag)
    | _ => .error ("expected exactly one colon delimiter in the istag " ++ istag)

/-- Modelled from the spec: imageapi.JoinImageStreamTag; an empty tag
defaults to latest. -/
def joinImageStreamTag (name tag : String) : String :=
  name ++ ":" ++ (if tag == "" then "latest" else tag)

/-- Modelled from the spec: cache.MetaNamespaceKeyFunc applied to an
object with the given namespace and name yields namespace/name, or just
the name when the namespace is empty. -/
def metaNamespaceKey (ns name : String) : String :=
  if ns == "" then name else ns ++ "/" ++ name

/-- Object reference as carried by spec tags and import specs; `ns` is
the Namespace field. -/
structure ObjectReference where
  kind : String
  ns : String
  name : String
deriving DecidableEq

/-- GetImageReferenceForObjectReference of the newer-variant computer:
resolves an object reference of kind DockerImage, ImageStreamImage or
ImageStreamTag against the enclosing namespace to a canonical reference
string. -/
def getImageReferenceForObjectReference (nsName : String) (objRef : ObjectReference) :
    Except String String :=
  if objRef.kind == "ImageStreamImage" || objRef.kind == "DockerImage" then
    match parseDockerImageReference objRef.name with
    | .error e => .error e
    | .ok res =>
      if objRef.kind == "ImageStreamImage" then
        let res := if res.ns == "" then { res with ns := objRef.ns } else res
        let res := if res.ns == "" then { res with ns := nsName } else res
        if res.id == "" then
          .error ("missing id in ImageStreamImage reference " ++ objRef.name)
        else
          .ok (daemonMinimal res).exact
      else
        .ok (daemonMinimal (dockerClientDefaults res)).exact
  else if objRef.kind == "ImageStreamTag" then
    match parseImageStreamTagName objRef.name with
    | .error e => .error e
    | .ok (isName, tag) =>
      let n := if objRef.ns.length > 0 then objRef.ns else nsName
      .ok (metaNamespaceKey n (joinImageStreamTag isName tag))
  else
    .error ("unsupported object reference kind " ++ objRef.kind)

/-- Spec tag reference; `fromRef` is the From field (a Lean keyword). -/
structure TagReference where
  name : String
  fromRef : Option ObjectReference
deriving DecidableEq

/-- Status tag event. -/
structure TagEvent where
  dockerImageReference : String
  image : String
deriving DecidableEq

/-- Image stream with spec tags and status tag histories; Go maps are
embedded as association lists iterated in list order. -/
structure ImageStream where
  ns : String
  name : String
  specTags : List (String × TagReference)
  statusTags : List (String × List TagEvent)
deriving DecidableEq

/-- Inserts a string into a duplicate-free list unless already present;
this embeds sets.String.Insert. -/
def insertUnique (l : List String) (s : String) : List String :=
  if l.contains s then l else s :: l

/-- gatherImagesFromImageStreamStatus of the newer-variant computer:
collects the digests recorded in the status tag histories, skipping
empty ones. -/
def gatherImagesFromImageStreamStatus (is : ImageStream) : List String :=
  is.statusTags.foldl
    (fun acc history =>
      history.2.foldl
        (fun acc item => if item.image == "" then acc else insertUnique acc item.image)
        acc)
    []

/-- gatherImagesFromImageStreamSpec of the newer-variant computer:
collects the canonical references of all spec tags, skipping null From
fields and references that fail to resolve. -/
def gatherImagesFromImageStreamSpec (is : ImageStream) : List String :=
  is.specTags.foldl
    (fun acc tagRef =>
      match tagRef.2.fromRef with
      | none => acc
      | some objRef =>
        match getImageReferenceForObjectReference is.ns objRef with
        | .error _ => acc
        | .ok ref => insertUnique acc ref)
    []

/-- ProcessImageStreamImages of the newer-variant computer: the list of
(reference, inSpec, inStatus) triples on which the handler is invoked,
one entry per unique canonical reference.  The Go map iteration order is
embedded as spec references first, then status-only references. -/
def processImageStreamImages (is : ImageStream) (specOnly : Bool) :
    List (String × Bool × Bool) :=
  let specRefs := gatherImagesFromImageStreamSpec is
  let statusRefs := if specOnly then [] else gatherImagesFromImageStreamStatus is
  specRefs.map (fun r => (r, true, statusRefs.contains r)) ++
    (statusRefs.filter (fun r => !specRefs.contains r)).map (fun r => (r, false, true))

/-- State threaded through GetProjectImagesUsageIncrement of the
newer-variant computer: the two dedup sets and the four counters. -/
structure UsageState where
  processedSpecRefs : List String
  processedStatusRefs : List String
  specRefs : Int
  specRefsIncrement : Int
  statusRefs : Int
  statusRefsIncrement : Int
deriving DecidableEq

def initUsageState : UsageState := ⟨[], [], 0, 0, 0, 0⟩

/-- Handler the newer-variant computer passes to the walker for every
stream other than the modified one: count first insertions into the two
dedup sets. -/
def baselineHandleRef (st : UsageState) (entry : String × Bool × Bool) : UsageState :=
  let ref := entry.1
  let inSpec := entry.2.1
  let inStatus := entry.2.2
  let st :=
    if !st.processedSpecRefs.contains ref && inSpec then
      { st with processedSpecRefs := ref :: st.processedSpecRefs,
                specRefs := st.specRefs + 1 }
    else st
  if !st.processedStatusRefs.contains ref && inStatus then
    { st with processedStatusRefs := ref :: st.processedStatusRefs,
              statusRefs := st.statusRefs + 1 }
  else st

/-- Handler the newer-variant computer passes to the walker for the
modified stream: count new status references and new spec references,
and spill a digest embedded in a fresh spec-only reference over to the
status side. -/
def candidateHandleRef (st : UsageState) (entry : String × Bool × Bool) : UsageState :=
  let ref := entry.1
  let inSpec := entry.2.1
  let inStatus := entry.2.2
  let st :=
    if !st.processedStatusRefs.contains ref && inStatus then
      { st with processedStatusRefs := ref :: st.processedStatusRefs,
                statusRefsIncrement := st.statusRefsIncrement + 1 }
    else st
  if st.processedSpecRefs.contains ref || !inSpec then st
  else
    let st := { st with processedSpecRefs := ref :: st.processedSpecRefs,
                        specRefsIncrement := st.specRefsIncrement + 1 }
    if inStatus then st
    else
      match parseDockerImageReference ref with
      | .ok parsed =>
        if parsed.id != "" && !st.processedStatusRefs.contains parsed.id then
          { st with processedStatusRefs := parsed.id :: st.processedStatusRefs,
                    statusRefsIncrement := st.statusRefsIncrement + 1 }
        else st
      | .error _ => st

/-- The baseline pass of GetProjectImagesUsageIncrement: walk every
stream of the project except the one being modified (matched by name). -/
def projectBaselineState (iss : List ImageStream) (isOpt : Option ImageStream) : UsageState :=
  iss.foldl
    (fun st imageStream =>
      match isOpt with
      | some i =>
        if imageStream.name == i.name then st
        else (processImageStreamImages imageStream false).foldl baselineHandleRef st
      | none => (processImageStreamImages imageStream false).foldl baselineHandleRef st)
    initUsageState

/-- The fold of a new spec-side reference (newImageStreamTag) in
GetProjectImagesUsageIncrement.  The Go guard len(s) != 0 is embedded as
inequality with the empty string. -/
def foldNewImageStreamTag (st : UsageState) (newTag : String) : UsageState :=
  if newTag != "" then
    if !st.processedSpecRefs.contains newTag then
      let st := { st with specRefsIncrement := st.specRefsIncrement + 1 }
      match parseDockerImageReference newTag with
      | .ok parsed =>
        if parsed.id != "" && !st.processedStatusRefs.contains parsed.id then
          { st with processedStatusRefs := parsed.id :: st.processedStatusRefs,
                    statusRefsIncrement := st.statusRefsIncrement + 1 }
        else st
      | .error _ => st
    else st
  else st

/-- The fold of a new status-side digest (newImageStreamImage) in
GetProjectImagesUsageIncrement. -/
def foldNewImageStreamImage (st : UsageState) (newImage : String) : UsageState :=
  if newImage != "" && !st.processedStatusRefs.contains newImage then
    { st with statusRefsIncrement := st.statusRefsIncrement + 1 }
  else st

/-- GetProjectImagesUsageIncrement of the newer-variant computer.  The
successful result of listing the project's image streams is the `iss`
argument; a listing failure short-circuits in Go and is not modelled
here. -/
def getProjectImagesUsageIncrement (iss : List ImageStream) (isOpt : Option ImageStream)
    (newImageStreamTag newImageStreamImage : String) : UsageState :=
  let st := projectBaselineState iss isOpt
  let st :=
    match isOpt with
    | some i => (processImageStreamImages i false).foldl candidateHandleRef st
    | none => st
  let st := foldNewImageStreamTag st newImageStreamTag
  foldNewImageStreamImage st newImageStreamImage

/-- State of the image-stream-import usage computer: the two dedup sets
(pre-loaded from the project) and the two increments of the explicit
images pass. -/
structure ImportState where
  processedSpecRefs : List String
  processedStatusRefs : List String
  specRefsIncrement : Int
  statusRefsIncrement : Int
deriving DecidableEq

def initImportState : ImportState := ⟨[], [], 0, 0⟩

/-- Handler pre-loading the import computer's dedup sets from an
existing stream of the project (no counting). -/
def importPreloadHandle (st : ImportState) (entry : String × Bool × Bool) : ImportState :=
  let ref := entry.1
  let inSpec := entry.2.1
  let inStatus := entry.2.2
  let st :=
    if !st.processedSpecRefs.contains ref && inSpec then
      { st with processedSpecRefs := ref :: st.processedSpecRefs }
    else st
  if !st.processedStatusRefs.contains ref && inStatus then
    { st with processedStatusRefs := ref :: st.processedStatusRefs }
  else st

/-- One step of getImagesUsageIncrement of the import computer: process
a single images[i].From object reference. -/
def imagesHandle (nsName : String) (st : ImportState) (imageFrom : ObjectReference) :
    ImportState :=
  if imageFrom.kind != "DockerImage" then st
  else
    match getImageReferenceForObjectReference nsName imageFrom with
    | .error _ => st
    | .ok ref =>
      if !st.processedSpecRefs.contains ref then
        let st := { st with processedSpecRefs := ref :: st.processedSpecRefs,
                            specRefsIncrement := st.specRefsIncrement + 1 }
        match parseDockerImageReference ref with
        | .error _ =>
          { st with processedStatusRefs := "" :: st.processedStatusRefs,
                    statusRefsIncrement := st.statusRefsIncrement + 1 }
        | .ok parsed =>
          if parsed.id == "" || !st.processedStatusRefs.contains parsed.id then
            { st with processedStatusRefs := parsed.id :: st.processedStatusRefs,
                      statusRefsIncrement := st.statusRefsIncrement + 1 }
          else st
      else st

/-- Resource usage reported by the image-stream-import evaluator, a map
with exactly the ImageStreamTags and ImageStreamImages keys. -/
structure Usage where
  imageStreamTags : Int
  imageStreamImages : Int
deriving DecidableEq

/-- The decrement loop of getRepositoryUsageIncrement: scan the spec
dedup set, and for every reference that parses without an image id and
whose repository (tag cleared) matches the import's repository, lower
the assumed worst-case increment, stopping once it reaches zero. -/
def repoOverlapLoop (repoRef : String) (refs : List String) (usageIncrement : Int) : Int :=
  match refs with
  | [] => usageIncrement
  | ref :: rest =>
    if usageIncrement ≤ 0 then usageIncrement
    else
      match parseDockerImageReference ref with
      | .error _ => repoOverlapLoop repoRef rest usageIncrement
      | .ok parsed =>
        if parsed.id != "" then repoOverlapLoop repoRef rest usageIncrement
        else if (daemonMinimal { parsed with tag := "" }).exact == repoRef then
          repoOverlapLoop repoRef rest (usageIncrement - 1)
        else repoOverlapLoop repoRef rest usageIncrement

/-- getRepositoryUsageIncrement of the import computer: worst-case
repository expansion (maximumTagsPerRepo) lowered by the overlap with
spec references already in the project. -/
def getRepositoryUsageIncrement (maximumTagsPerRepo : Int) (processedSpecRefs : List String)
    (nsName : String) (repositoryFrom : Option ObjectReference) : Usage :=
  match repositoryFrom with
  | none => ⟨0, 0⟩
  | some fromRef =>
    if fromRef.kind != "DockerImage" then ⟨0, 0⟩
    else
      match getImageReferenceForObjectReference nsName fromRef with
      | .error _ => ⟨0, 0⟩
      | .ok repoRef =>
        let usageIncrement := repoOverlapLoop repoRef processedSpecRefs maximumTagsPerRepo
        ⟨usageIncrement, usageIncrement⟩

/-- Image-stream-import object: Spec.Import, the From references of
Spec.Images, and the From reference of Spec.Repository. -/
structure ImageStreamImport where
  ns : String
  name : String
  importEnabled : Bool
  images : List ObjectReference
  repository : Option ObjectReference
deriving DecidableEq

/-- Listing failures surfaced by the API server. -/
inductive ListErr where
  | forbidden (msg : String)
  | other (msg : String)
deriving DecidableEq

/-- Usage of the image-stream-import evaluator (the Usage method of
the import computer): zero on dry runs and empty imports, zero on listing
failure, otherwise the sum of the explicit-images increments and the
worst-case repository increment computed over the pre-loaded project
dedup sets. -/
def imageStreamImportUsage (maximumTagsPerRepo : Int)
    (listResult : Except ListErr (List ImageStream)) (isi : ImageStreamImport) : Usage :=
  if !isi.importEnabled || (isi.images.isEmpty && isi.repository.isNone) then ⟨0, 0⟩
  else
    match listResult with
    | .error _ => ⟨0, 0⟩
    | .ok iss =>
      let st := iss.foldl
        (fun st s => (processImageStreamImages s false).foldl importPreloadHandle st)
        initImportState
      let st := isi.images.foldl (imagesHandle isi.ns) st
      let repositoryUsage :=
        getRepositoryUsageIncrement maximumTagsPerRepo st.processedSpecRefs isi.ns isi.repository
      ⟨st.specRefsIncrement + repositoryUsage.imageStreamTags,
       st.statusRefsIncrement + repositoryUsage.imageStreamImages⟩

/-- GetImageReferenceForObjectReference of the older-variant computer
(usage.go): the namespace fallback applies to both DockerImage and
ImageStreamImage kinds, a present image id is returned alone, and no
docker-client defaulting takes place. -/
def oldGetImageReferenceForObjectReference (nsName : String) (objRef : ObjectReference) :
    Except String String :=
  if objRef.kind == "ImageStreamImage" || objRef.kind == "DockerImage" then
    match parseDockerImageReference objRef.name with
    | .error e => .error e
    | .ok res =>
      let res := if res.ns == "" then { res with ns := objRef.ns } else res
      let res := if res.ns == "" then { res with ns := nsName } else res
      if res.id != "" then .ok res.id
      else .ok res.exact
  else if objRef.kind == "ImageStreamTag" then
    match parseImageStreamTagName objRef.name with
    | .error e => .error e
    | .ok (isName, tag) =>
      let n := if objRef.ns.length > 0 then objRef.ns else nsName
      .ok (metaNamespaceKey n (joinImageStreamTag isName tag))
  else
    .error ("unsupported object reference kind " ++ objRef.kind)

/-- gatherImagesFromImageStreamStatus of the older-variant computer: the
digest of each status item, falling back to its docker image reference
when the digest is empty. -/
def oldGatherImagesFromImageStreamStatus (is : ImageStream) : List String :=
  is.statusTags.foldl
    (fun acc history =>
      history.2.foldl
        (fun acc item =>
          insertUnique acc (if item.image == "" then item.dockerImageReference else item.image))
        acc)
    []

/-- gatherImagesFromImageStreamSpec of the older-variant computer. -/
def oldGatherImagesFromImageStreamSpec (is : ImageStream) : List String :=
  is.specTags.foldl
    (fun acc tagRef =>
      match tagRef.2.fromRef with
      | none => acc
      | some objRef =>
        match oldGetImageReferenceForObjectReference is.ns objRef with
        | .error _ => acc
        | .ok ref => insertUnique acc ref)
    []

/-- ProcessImageStreamImages of the older-variant computer: the unique
references of the status, merged with those of the spec when the
computer was created with processSpec true. -/
def oldProcessImageStreamImages (processSpec : Bool) (is : ImageStream) : List String :=
  let refs := oldGatherImagesFromImageStreamStatus is
  if processSpec then (oldGatherImagesFromImageStreamSpec is).foldl insertUnique refs
  else refs

/-- The final step of the older-variant GetProjectImagesUsageIncrement:
an image reference not yet processed counts as an increment unless it
parses with an image id that is already processed. -/
def oldImageReferenceFold (processed : List String) (inc : Int) (imageReference : String) :
    Int :=
  if imageReference != "" && !processed.contains imageReference then
    match parseDockerImageReference imageReference with
    | .error _ => inc + 1
    | .ok ref =>
      if ref.id == "" || !processed.contains ref.id then inc + 1 else inc
  else inc

/-- GetProjectImagesUsageIncrement of the older-variant computer
(usage.go): returns (images, imagesIncrement) for the project, the
optional modified stream and the optional new image reference. -/
def oldGetProjectImagesUsageIncrement (processSpec : Bool) (iss : List ImageStream)
    (isOpt : Option ImageStream) (imageReference : String) : Int × Int :=
  let processed := iss.foldl
    (fun acc s =>
      match isOpt with
      | some i =>
        if s.name == i.name then acc
        else (oldProcessImageStreamImages processSpec s).foldl insertUnique acc
      | none => (oldProcessImageStreamImages processSpec s).foldl insertUnique acc)
    []
  let step :=
    match isOpt with
    | some i =>
      (oldProcessImageStreamImages processSpec i).foldl
        (fun (p : List String × Int) ref =>
          if p.1.contains ref then p else (ref :: p.1, p.2 + 1))
        (processed, (0 : Int))
    | none => (processed, 0)
  let processed := step.1
  let imagesIncrement := oldImageReferenceFold processed step.2 imageReference
  ((processed.length : Int), imagesIncrement)

/-- Failures of fetching a single image stream. -/
inductive GetErr where
  | notFound (msg : String)
  | other (msg : String)
deriving DecidableEq

/-- The resource name strings used by the quota engine (modelled
constants of pkg/image/api). -/
def resourceImageStreamTags : String := "openshift.io/imagestreamtags"

def resourceImageStreamImages : String := "openshift.io/imagestreamimages"

/-- A k8s ResourceList: an association list from resource name to
quantity value. -/
abbrev ResourceList := List (String × Int)

/-- Usage of the image-stream-mapping evaluator
(makeImageStreamMappingAdmissionUsageFunc): a zero ImageStreamImages
usage when the target stream cannot be fetched, an empty list when
listing the project fails, and otherwise the older-variant increment
for the mapping's image docker reference with processSpec false. -/
def imageStreamMappingUsage (streamGet : Except GetErr Unit)
    (listResult : Except ListErr (List ImageStream)) (imageDockerRef : String) : ResourceList :=
  match streamGet with
  | .error _ => [(resourceImageStreamImages, 0)]
  | .ok _ =>
    match listResult with
    | .error _ => []
    | .ok iss =>
      [(resourceImageStreamImages,
        (oldGetProjectImagesUsageIncrement false iss none imageDockerRef).2)]

/-- Modelled from the spec: k8s quota.ResourceNames, the keys of a
resource list. -/
def rlResourceNames (l : ResourceList) : List String := l.map (·.1)

/-- Looks a key up in a resource list (first entry wins, as in a Go
map, which cannot hold duplicate keys). -/
def rlLookup (l : ResourceList) (k : String) : Option Int :=
  (l.find? (fun kv => kv.1 == k)).map (·.2)

/-- Looks a key up, defaulting to the zero quantity as Go map indexing
does. -/
def rlLookupD (l : ResourceList) (k : String) : Int := (rlLookup l k).getD 0

/-- Modelled from the spec: k8s quota.Add, the pointwise sum over the
union of keys. -/
def rlAdd (a b : ResourceList) : ResourceList :=
  a.map (fun kv =>
    match rlLookup b kv.1 with
    | some v => (kv.1, kv.2 + v)
    | none => kv) ++
    b.filter (fun kv => !(rlResourceNames a).contains kv.1)

/-- Modelled from the spec: k8s quota.Mask, the projection onto a set of
resource names. -/
def rlMask (l : ResourceList) (names : List String) : ResourceList :=
  l.filter (fun kv => names.contains kv.1)

/-- Modelled from the spec: k8s quota.Subtract. -/
def rlSubtract (a b : ResourceList) : ResourceList :=
  a.map (fun kv =>
    match rlLookup b kv.1 with
    | some v => (kv.1, kv.2 - v)
    | none => kv) ++
    (b.filter (fun kv => !(rlResourceNames a).contains kv.1)).map (fun kv => (kv.1, -kv.2))

/-- Modelled from the spec: k8s quota.LessThanOrEqual; compares every
entry of the limit list b against a, returning whether a stays within b
together with the exceeded resource names. -/
def rlLessThanOrEqual (a b : ResourceList) : Bool × List String :=
  b.foldl
    (fun acc kv =>
      match rlLookup a kv.1 with
      | some v => if kv.2 < v then (false, acc.2 ++ [kv.1]) else acc
      | none => acc)
    (true, [])

/-- A resource quota object: hard limits and observed usage. -/
structure ResourceQuota where
  hard : ResourceList
  used : ResourceList
deriving DecidableEq

/-- The limit type recognised by the image admission (modelled constant
imageapi.LimitTypeImageSize). -/
def limitTypeImageSize : String := "openshift.io/Image"

/-- A limit range item: its type and the optional Max storage quantity. -/
structure LimitRangeItem where
  type : String
  maxStorage : Option Int
deriving DecidableEq

/-- A limit range object. -/
structure LimitRange where
  limits : List LimitRangeItem
deriving DecidableEq

/-- AdmitImage of pkg/image/admission: rejects a size above the Max
storage quantity of an ImageSize limit range item. -/
def admitImage (size : Int) (limit : LimitRangeItem) : Except String Unit :=
  if limit.type != limitTypeImageSize then .ok ()
  else
    match limit.maxStorage with
    | none => .ok ()
    | some limitQuantity =>
      if limitQuantity < size then
        .error (toString size ++ " exceeds the maximum storage usage per " ++
          limitTypeImageSize ++ " (" ++ toString limitQuantity ++ ")")
      else .ok ()

/-- Outcome of a registry blob-admission check: allowed, denied with the
logged details, or a propagated listing failure. -/
inductive AdmitOutcome where
  | allowed
  | accessDenied (details : List String)
  | listError (e : ListErr)
deriving DecidableEq

/-- The inner limit loop of admitLimitRanges: the first limit item
rejecting the size denies the write. -/
def checkLimits (size : Int) : List LimitRangeItem → AdmitOutcome
  | [] => .allowed
  | l :: rest =>
    match admitImage size l with
    | .error e => .accessDenied [e]
    | .ok _ => checkLimits size rest

/-- The outer loop of admitLimitRanges over all limit ranges of the
project. -/
def checkLimitRangeList (size : Int) : List LimitRange → AdmitOutcome
  | [] => .allowed
  | lr :: rest =>
    match checkLimits size lr.limits with
    | .allowed => checkLimitRangeList size rest
    | o => o

/-- The probe usage of the registry quota check: one ImageStreamImages. -/
def probeUsage : ResourceList := [(resourceImageStreamImages, 1)]

/-- The resource names the probe is masked to. -/
def probeResources : List String := rlResourceNames probeUsage

/-- Masked projected usage of a quota after adding the probe. -/
def rqMaskedUsed (rq : ResourceQuota) : ResourceList :=
  rlMask (rlAdd probeUsage rq.used) probeResources

/-- Masked hard limits of a quota. -/
def rqMaskedHard (rq : ResourceQuota) : ResourceList :=
  rlMask rq.hard probeResources

/-- The detail line logged for one exceeded resource: its name, its hard
cap and the overage. -/
def rqDetailLine (rq : ResourceQuota) (r : String) : String :=
  r ++ " limited to " ++ toString (rlLookupD (rqMaskedHard rq) r) ++ " by " ++
    toString (rlLookupD (rlSubtract (rqMaskedUsed rq) (rqMaskedHard rq)) r)

/-- The loop of admitQuotas over all resource quotas of the project: the
first quota whose masked usage plus the probe exceeds its masked hard
limits denies the write with one detail line per exceeded resource. -/
def checkQuotaList : List ResourceQuota → AdmitOutcome
  | [] => .allowed
  | rq :: rest =>
    let res := rlLessThanOrEqual (rqMaskedUsed rq) (rqMaskedHard rq)
    if res.1 then checkQuotaList rest
    else .accessDenied (res.2.map (rqDetailLine rq))

/-- admitLimitRanges of pkg/dockerregistry/server/quotarestrictedblobstore.go
(the variant without project caches): a size below one byte is admitted
without listing, a forbidden listing failure is treated as allow, any
other listing failure propagates. -/
def admitLimitRanges (size : Int) (listResult : Except ListErr (List LimitRange)) :
    AdmitOutcome :=
  if size < 1 then .allowed
  else
    match listResult with
    | .error (.forbidden _) => .allowed
    | .error e => .listError e
    | .ok items => checkLimitRangeList size items

/-- admitQuotas of the variant without project caches: a forbidden
listing failure is treated as allow, any other listing failure
propagates. -/
def admitQuotas (listResult : Except ListErr (List ResourceQuota)) : AdmitOutcome :=
  match listResult with
  | .error (.forbidden _) => .allowed
  | .error e => .listError e
  | .ok items => checkQuotaList items

/-- admitBlobWrite of the variant without project caches: limit ranges
first, then resource quotas. -/
def admitBlobWrite (size : Int) (lrList : Except ListErr (List LimitRange))
    (rqList : Except ListErr (List ResourceQuota)) : AdmitOutcome :=
  match admitLimitRanges size lrList with
  | .allowed => admitQuotas rqList
  | o => o

/-- admitLimitRanges of the cached variant (the quotaEnforcingCaches
module): a size below one byte is admitted, a cache hit skips listing,
and every listing failure on a cache miss — forbidden included —
propagates to the caller. -/
def admitLimitRangesCached (size : Int) (cached : Option (List LimitRange))
    (listResult : Except ListErr (List LimitRange)) : AdmitOutcome :=
  if size < 1 then .allowed
  else
    match cached with
    | some lrs => checkLimitRangeList size lrs
    | none =>
      match listResult with
      | .error e => .listError e
      | .ok lrs => checkLimitRangeList size lrs

/-- admitQuotas of the cached variant: every listing failure on a cache
miss propagates. -/
def admitQuotasCached (cached : Option (List ResourceQuota))
    (listResult : Except ListErr (List ResourceQuota)) : AdmitOutcome :=
  match cached with
  | some rqs => checkQuotaList rqs
  | none =>
    match listResult with
    | .error e => .listError e
    | .ok rqs => checkQuotaList rqs

/-- admitBlobWrite of the cached variant. -/
def admitBlobWriteCached (size : Int) (lrCached : Option (List LimitRange))
    (lrList : Except ListErr (List LimitRange)) (rqCached : Option (List ResourceQuota))
    (rqList : Except ListErr (List ResourceQuota)) : AdmitOutcome :=
  match admitLimitRangesCached size lrCached lrList with
  | .allowed => admitQuotasCached rqCached rqList
  | o => o

theorem foldlPreserves {α β : Type} {P : α → Prop} {f : α → β → α}
    (h : ∀ a b, P a → P (f a b)) : ∀ (l : List β) (a : α), P a → P (l.foldl f a) := by
  intro l
  induction l with
  | nil => intro a ha; exact ha
  | cons b t ih => intro a ha; exact ih (f a b) (h a b ha)

theorem containsTrueOfMem {l : List String} {a : String} (h : a ∈ l) : l.contains a = true :=
  List.elem_iff.mpr h

theorem containsFalseOfNotMem {l : List String} {a : String} (h : a ∉ l) :
    l.contains a = false := by
  cases hc : l.contains a with
  | false => rfl
  | true => exact absurd (List.elem_iff.mp hc) h

/-- C9: an image-stream-mapping whose target stream cannot be fetched
(not found or otherwise) reports a zero ImageStreamImages usage and
surfaces no error, whatever the project listing would have returned. -/
theorem imageStreamMappingUsage_missing_stream (e : GetErr)
    (listResult : Except ListErr (List ImageStream)) (imageDockerRef : String) :
    imageStreamMappingUsage (.error e) listResult imageDockerRef =
      [(resourceImageStreamImages, 0)] := rfl

/-- C6 (amended): in the variant of the registry blob-admission path
without project caches, a forbidden listing failure of limit ranges or
resource quotas is treated as allow while any other listing failure
propagates; in the cached variant, every listing failure on a cache
miss — forbidden included — propagates to the caller. -/
theorem blobAdmission_listing_failures :
    (∀ (size : Int) (msg : String),
      admitLimitRanges size (.error (.forbidden msg)) = .allowed) ∧
    (∀ (size : Int) (msg : String), 1 ≤ size →
      admitLimitRanges size (.error (.other msg)) = .listError (.other msg)) ∧
    (∀ msg : String, admitQuotas (.error (.forbidden msg)) = .allowed) ∧
    (∀ msg : String, admitQuotas (.error (.other msg)) = .listError (.other msg)) ∧
    (∀ (size : Int) (e : ListErr), 1 ≤ size →
      admitLimitRangesCached size none (.error e) = .listError e) ∧
    (∀ e : ListErr, admitQuotasCached none (.error e) = .listError e) := by
  refine ⟨?_, ?_, ?_, ?_, ?_, ?_⟩
  · intro size msg
    unfold admitLimitRanges
    split <;> rfl
  · intro size msg h
    unfold admitLimitRanges
    rw [if_neg (by omega)]
  · intro msg; rfl
  · intro msg; rfl
  · intro size e h
    unfold admitLimitRangesCached
    rw [if_neg (by omega)]
  · intro e; rfl

/-- C6 counterexample: in the cached variant of the blob-admission path
a forbidden listing failure of limit ranges is returned to the caller,
not treated as allow, contradicting the claim as stated. -/
theorem blobAdmission_forbidden_counterexample :
    admitLimitRangesCached 1 none (.error (.forbidden "forbidden")) =
      .listError (.forbidden "forbidden") ∧
    admitLimitRangesCached 1 none (.error (.forbidden "forbidden")) ≠ .allowed := by
  decide

/-- C6 witness: the amended theorem applied at concrete inputs. -/
theorem blobAdmission_listing_failures_witness :
    admitLimitRanges 7 (.error (.forbidden "f")) = .allowed ∧
    admitLimitRanges 7 (.error (.other "x")) = .listError (.other "x") ∧
    admitLimitRangesCached 7 none (.error (.forbidden "f")) = .listError (.forbidden "f") :=
  ⟨blobAdmission_listing_failures.1 7 "f",
   blobAdmission_listing_failures.2.1 7 "x" (by decide),
   blobAdmission_listing_failures.2.2.2.2.1 7 (.forbidden "f") (by decide)⟩

/-- C10: a blob commit of provisional size below one byte skips the
limit-range check entirely in both variants — the check allows it
whatever the limit ranges say — while the resource-quota check still
runs unchanged and can deny the commit. -/
theorem tinyBlob_bypasses_limitRangeCheck (size : Int) (h : size < 1)
    (lrList : Except ListErr (List LimitRange)) (rqList : Except ListErr (List ResourceQuota))
    (lrCached : Option (List LimitRange)) (rqCached : Option (List ResourceQuota))
    (rqListTwo : Except ListErr (List ResourceQuota)) :
    admitLimitRanges size lrList = .allowed ∧
    admitBlobWrite size lrList rqList = admitQuotas rqList ∧
    admitLimitRangesCached size lrCached lrList = .allowed ∧
    admitBlobWriteCached size lrCached lrList rqCached rqListTwo =
      admitQuotasCached rqCached rqListTwo ∧
    (∃ (rqs : List ResourceQuota) (ds : List String),
      admitBlobWrite size lrList (.ok rqs) = .accessDenied ds ∧ ds ≠ []) := by
  have hlr : admitLimitRanges size lrList = .allowed := by
    unfold admitLimitRanges
    rw [if_pos h]
  have hlrc : admitLimitRangesCached size lrCached lrList = .allowed := by
    unfold admitLimitRangesCached
    rw [if_pos h]
  refine ⟨hlr, ?_, hlrc, ?_, ?_⟩
  · unfold admitBlobWrite
    rw [hlr]
  · unfold admitBlobWriteCached
    rw [hlrc]
  · refine ⟨[⟨[(resourceImageStreamImages, 10)], [(resourceImageStreamImages, 10)]⟩],
      ["openshift.io/imagestreamimages limited to 10 by 1"], ?_, by decide⟩
    unfold admitBlobWrite
    rw [hlr]
    decide

/-- C10 witness: the zero-size bypass at concrete inputs: the same limit
range denies a 100-byte layer but a zero-byte commit passes the
limit-range check, and the quota check still denies the zero-byte
commit on an exhausted quota. -/
theorem tinyBlob_bypasses_limitRangeCheck_witness :
    admitLimitRanges 0 (.ok [⟨[⟨limitTypeImageSize, some 50⟩]⟩]) = .allowed ∧
    admitBlobWrite 0 (.ok [⟨[⟨limitTypeImageSize, some 50⟩]⟩])
        (.ok [⟨[(resourceImageStreamImages, 10)], [(resourceImageStreamImages, 10)]⟩]) =
      admitQuotas (.ok [⟨[(resourceImageStreamImages, 10)], [(resourceImageStreamImages, 10)]⟩]) ∧
    admitLimitRanges 100 (.ok [⟨[⟨limitTypeImageSize, some 50⟩]⟩]) ≠ .allowed :=
  ⟨(tinyBlob_bypasses_limitRangeCheck 0 (by decide) (.ok [⟨[⟨limitTypeImageSize, some 50⟩]⟩])
      (.ok [⟨[(resourceImageStreamImages, 10)], [(resourceImageStreamImages, 10)]⟩])
      none none (.ok [])).1,
   (tinyBlob_bypasses_limitRangeCheck 0 (by decide) (.ok [⟨[⟨limitTypeImageSize, some 50⟩]⟩])
      (.ok [⟨[(resourceImageStreamImages, 10)], [(resourceImageStreamImages, 10)]⟩])
      none none (.ok [])).2.1,
   by decide⟩

theorem baselineHandleRef_keeps_increments (st : UsageState) (e : String × Bool × Bool) :
    (baselineHandleRef st e).specRefsIncrement = st.specRefsIncrement ∧
    (baselineHandleRef st e).statusRefsIncrement = st.statusRefsIncrement := by
  unfold baselineHandleRef
  dsimp only
  split <;> split <;> simp

theorem projectBaselineState_keeps_increments (iss : List ImageStream)
    (isOpt : Option ImageStream) :
    (projectBaselineState iss isOpt).specRefsIncrement = 0 ∧
    (projectBaselineState iss isOpt).statusRefsIncrement = 0 := by
  unfold projectBaselineState
  have hinner : ∀ (l : List (String × Bool × Bool)) (st : UsageState),
      (st.specRefsIncrement = 0 ∧ st.statusRefsIncrement = 0) →
      ((l.foldl baselineHandleRef st).specRefsIncrement = 0 ∧
       (l.foldl baselineHandleRef st).statusRefsIncrement = 0) := by
    intro l
    refine foldlPreserves ?_ l
    intro a b hab
    have h := baselineHandleRef_keeps_increments a b
    exact ⟨h.1.trans hab.1, h.2.trans hab.2⟩
  refine foldlPreserves
    (P := fun st => st.specRefsIncrement = 0 ∧ st.statusRefsIncrement = 0)
    ?_ iss initUsageState ⟨rfl, rfl⟩
  intro a b hab
  cases isOpt with
  | none => exact hinner _ a hab
  | some i =>
    by_cases hb : b.name == i.name
    · simp only [hb, if_true]
      exact hab
    · simp only [hb, if_false]
      exact hinner _ a hab

/-- C1: for a call of the newer-variant GetProjectImagesUsageIncrement
in the image-stream-tag shape — no modified stream, a nonempty new spec
reference, no new status digest — over a successfully listed project:
when the reference is already in the project's spec dedup set both
increments are zero, and otherwise the spec increment is exactly one
while the status increment is one exactly when the reference parses as
a docker image reference carrying a digest not already in the project's
status dedup set. -/
theorem getProjectImagesUsageIncrement_newSpecRef_correct (iss : List ImageStream)
    (tag : String) (htag : tag ≠ "") :
    (tag ∈ (projectBaselineState iss none).processedSpecRefs →
      (getProjectImagesUsageIncrement iss none tag "").specRefsIncrement = 0 ∧
      (getProjectImagesUsageIncrement iss none tag "").statusRefsIncrement = 0) ∧
    (tag ∉ (projectBaselineState iss none).processedSpecRefs →
      (getProjectImagesUsageIncrement iss none tag "").specRefsIncrement = 1 ∧
      (getProjectImagesUsageIncrement iss none tag "").statusRefsIncrement =
        (match parseDockerImageReference tag with
         | .ok parsed =>
           if parsed.id ≠ "" ∧
               parsed.id ∉ (projectBaselineState iss none).processedStatusRefs then 1 else 0
         | .error _ => 0)) := by
  have hbase := projectBaselineState_keeps_increments iss none
  have hfn : getProjectImagesUsageIncrement iss none tag "" =
      foldNewImageStreamImage (foldNewImageStreamTag (projectBaselineState iss none) tag) "" :=
    rfl
  have himg : ∀ st : UsageState, foldNewImageStreamImage st "" = st := by
    intro st
    unfold foldNewImageStreamImage
    simp
  rw [hfn, himg]
  constructor
  · intro hmem
    unfold foldNewImageStreamTag
    rw [if_pos (by simpa using htag), if_neg (by simpa using hmem)]
    exact ⟨hbase.1, hbase.2⟩
  · intro hmem
    unfold foldNewImageStreamTag
    rw [if_pos (by simpa using htag), if_pos (by simpa using hmem)]
    cases hp : parseDockerImageReference tag with
    | error e =>
      exact ⟨by simpa using hbase.1, by simpa using hbase.2⟩
    | ok parsed =>
      dsimp only
      by_cases hid : parsed.id = ""
      · rw [if_neg (by simp [hid]), if_neg (fun hc => hc.1 hid)]
        exact ⟨by simpa using hbase.1, by simpa using hbase.2⟩
      · by_cases hm : parsed.id ∈ (projectBaselineState iss none).processedStatusRefs
        · rw [if_neg (by simp [hid]; exact hm), if_neg (fun hc => hc.2 hm)]
          exact ⟨by simpa using hbase.1, by simpa using hbase.2⟩
        · rw [if_pos (by simp [hid]; exact hm), if_pos ⟨hid, hm⟩]
          exact ⟨by simpa using hbase.1, by simpa using hbase.2⟩

/-- C1 witness: re-tagging a digest already recorded in the status of a
stream of the project yields an ImageStreamTags increment of one and an
ImageStreamImages increment of zero. -/
theorem getProjectImagesUsageIncrement_newSpecRef_witness :
    (getProjectImagesUsageIncrement
        [⟨"test", "destis", [],
          [("latest", [⟨"172.30.12.34:5000/test/destis@sha256:0b", "sha256:0b"⟩])]⟩]
        none "shared/is@sha256:0b" "").specRefsIncrement = 1 ∧
    (getProjectImagesUsageIncrement
        [⟨"test", "destis", [],
          [("latest", [⟨"172.30.12.34:5000/test/destis@sha256:0b", "sha256:0b"⟩])]⟩]
        none "shared/is@sha256:0b" "").statusRefsIncrement = 0 := by
  have h := (getProjectImagesUsageIncrement_newSpecRef_correct
      [⟨"test", "destis", [],
        [("latest", [⟨"172.30.12.34:5000/test/destis@sha256:0b", "sha256:0b"⟩])]⟩]
      "shared/is@sha256:0b" (by decide)).2 (by decide)
  exact ⟨h.1, by rw [h.2]; decide⟩

/-- The overlap test actually performed by getRepositoryUsageIncrement:
the spec reference parses without an image id and, with its tag
cleared, daemon-minimises to the import's repository reference. -/
def repoRefMatches (repoRef ref : String) : Bool :=
  match parseDockerImageReference ref with
  | .error _ => false
  | .ok parsed => parsed.id == "" && (daemonMinimal { parsed with tag := "" }).exact == repoRef

/-- The overlap test in the words of the claim for a repository
imported in bulk: the reference shares the same repository with the import
once both its tag and its image id are ignored. -/
def sharesRepositoryIgnoringTagAndId (repoRef ref : String) : Bool :=
  match parseDockerImageReference ref with
  | .error _ => false
  | .ok parsed => (daemonMinimal { parsed with tag := "", id := "" }).exact == repoRef

theorem repoOverlapLoop_closed_form (repoRef : String) :
    ∀ (refs : List String) (u : Int), 0 ≤ u →
      repoOverlapLoop repoRef refs u =
        max 0 (u - ((refs.filter (repoRefMatches repoRef)).length : Int)) := by
  intro refs
  induction refs with
  | nil =>
    intro u hu
    simp [repoOverlapLoop]
    omega
  | cons ref rest ih =>
    intro u hu
    unfold repoOverlapLoop
    by_cases hz : u ≤ 0
    · have hu0 : u = 0 := le_antisymm hz hu
      rw [if_pos hz, hu0]
      have : (0 : Int) ≤ ((((ref :: rest).filter (repoRefMatches repoRef)).length : Int)) := by
        positivity
      omega
    · rw [if_neg hz]
      cases hp : parseDockerImageReference ref with
      | error e =>
        have hm : repoRefMatches repoRef ref = false := by
          unfold repoRefMatches
          rw [hp]
        rw [List.filter_cons_of_neg (by simp [hm])]
        exact ih u hu
      | ok parsed =>
        dsimp only
        by_cases hid : parsed.id = ""
        · rw [if_neg (by simp [hid])]
          by_cases hrepo : (daemonMinimal { parsed with tag := "" }).exact = repoRef
          · have hm : repoRefMatches repoRef ref = true := by
              unfold repoRefMatches
              rw [hp]
              simp only [hid] at hrepo ⊢
              simp [hrepo]
            rw [if_pos (by simp [hrepo]), List.filter_cons_of_pos (by simp [hm])]
            rw [ih (u - 1) (by omega)]
            simp only [List.length_cons]
            omega
          · have hm : repoRefMatches repoRef ref = false := by
              unfold repoRefMatches
              rw [hp]
              simp only [hid] at hrepo ⊢
              simp [hrepo]
            rw [if_neg (by simp [hrepo]), List.filter_cons_of_neg (by simp [hm])]
            exact ih u hu
        · have hm : repoRefMatches repoRef ref = false := by
            unfold repoRefMatches
            rw [hp]
            simp [hid]
          rw [if_pos (by simp [hid]), List.filter_cons_of_neg (by simp [hm])]
          exact ih u hu

/-- C2 (amended): for an image-stream-import repository of kind
DockerImage that resolves to repoRef, the repository contribution to
both increments is the configured maximum bulk imports per repository
lowered by one for each spec reference of the project's spec dedup set
that parses without an image id and whose repository (tag ignored)
equals repoRef, clamped at zero — spec references carrying an image id
never lower it; the contribution is never negative. -/
theorem getRepositoryUsageIncrement_overlap_correct (maximumTagsPerRepo : Int)
    (refs : List String) (nsName : String) (fromRef : ObjectReference) (repoRef : String)
    (hkind : fromRef.kind = "DockerImage")
    (hres : getImageReferenceForObjectReference nsName fromRef = .ok repoRef)
    (hmax : 0 ≤ maximumTagsPerRepo) :
    getRepositoryUsageIncrement maximumTagsPerRepo refs nsName (some fromRef) =
      ⟨max 0 (maximumTagsPerRepo - ((refs.filter (repoRefMatches repoRef)).length : Int)),
       max 0 (maximumTagsPerRepo - ((refs.filter (repoRefMatches repoRef)).length : Int))⟩ ∧
    0 ≤ (getRepositoryUsageIncrement maximumTagsPerRepo refs nsName
          (some fromRef)).imageStreamTags ∧
    0 ≤ (getRepositoryUsageIncrement maximumTagsPerRepo refs nsName
          (some fromRef)).imageStreamImages := by
  have hmain : getRepositoryUsageIncrement maximumTagsPerRepo refs nsName (some fromRef) =
      ⟨max 0 (maximumTagsPerRepo - ((refs.filter (repoRefMatches repoRef)).length : Int)),
       max 0 (maximumTagsPerRepo - ((refs.filter (repoRefMatches repoRef)).length : Int))⟩ := by
    unfold getRepositoryUsageIncrement
    dsimp only
    rw [if_neg (by simp [hkind]), hres]
    dsimp only
    rw [repoOverlapLoop_closed_form repoRef refs maximumTagsPerRepo hmax]
  refine ⟨hmain, ?_, ?_⟩ <;> rw [hmain] <;> exact le_max_left 0 _

/-- C2 counterexample: with a maximum of five and a single existing
spec reference docker.io/fedora at a digest — a reference that does
share the repository of the imported docker.io/library/fedora once tag
and id are ignored — the code still contributes five, not the four the
claim as stated predicts, because references carrying an image id are
skipped by the overlap loop. -/
theorem getRepositoryUsageIncrement_digest_ref_counterexample :
    getImageReferenceForObjectReference "test" ⟨"DockerImage", "", "docker.io/library/fedora"⟩ =
      .ok "docker.io/fedora" ∧
    sharesRepositoryIgnoringTagAndId "docker.io/fedora" "docker.io/fedora@sha256:0a" = true ∧
    getRepositoryUsageIncrement 5 ["docker.io/fedora@sha256:0a"] "test"
        (some ⟨"DockerImage", "", "docker.io/library/fedora"⟩) =
      ⟨5, 5⟩ ∧
    (5 : Int) ≠ 5 - 1 := by
  decide

/-- C2 witness: the amended theorem applied to the scenario of the
claim — maximum five, two fedora spec references already in the
project — yields a repository contribution of three and three. -/
theorem getRepositoryUsageIncrement_overlap_witness :
    getRepositoryUsageIncrement 5 ["docker.io/fedora", "docker.io/fedora:rawhide"] "test"
        (some ⟨"DockerImage", "", "docker.io/library/fedora"⟩) = ⟨3, 3⟩ :=
  ((getRepositoryUsageIncrement_overlap_correct 5
      ["docker.io/fedora", "docker.io/fedora:rawhide"] "test"
      ⟨"DockerImage", "", "docker.io/library/fedora"⟩ "docker.io/fedora"
      rfl (by decide) (by decide)).1).trans (by decide)

/-- C3 (amended): processing one explicit images[i].From entry of an
image-stream-import: entries of a kind other than DockerImage, and
entries that fail resolution, change nothing; an entry resolving to a
reference already in the spec dedup set changes nothing; an entry
resolving to a fresh reference adds exactly one to the ImageStreamTags
increment and also adds exactly one to the ImageStreamImages increment
unless the reference parses with a digest that is already in the status
dedup set — in particular a reference without any digest still counts
towards ImageStreamImages. -/
theorem imagesHandle_step_correct (nsName : String) (st : ImportState) (f : ObjectReference) :
    (f.kind ≠ "DockerImage" → imagesHandle nsName st f = st) ∧
    (∀ e, getImageReferenceForObjectReference nsName f = .error e →
      imagesHandle nsName st f = st) ∧
    (∀ ref, f.kind = "DockerImage" →
      getImageReferenceForObjectReference nsName f = .ok ref →
      (ref ∈ st.processedSpecRefs → imagesHandle nsName st f = st) ∧
      (ref ∉ st.processedSpecRefs →
        (imagesHandle nsName st f).specRefsIncrement = st.specRefsIncrement + 1 ∧
        ref ∈ (imagesHandle nsName st f).processedSpecRefs ∧
        (imagesHandle nsName st f).statusRefsIncrement =
          (match parseDockerImageReference ref with
           | .ok parsed =>
             if parsed.id ≠ "" ∧ parsed.id ∈ st.processedStatusRefs then
               st.statusRefsIncrement
             else st.statusRefsIncrement + 1
           | .error _ => st.statusRefsIncrement + 1))) := by
  refine ⟨?_, ?_, ?_⟩
  · intro hk
    unfold imagesHandle
    rw [if_pos (by simpa using hk)]
  · intro e he
    unfold imagesHandle
    by_cases hk : f.kind = "DockerImage"
    · rw [if_neg (by simp [hk]), he]
    · rw [if_pos (by simpa using hk)]
  · intro ref hk href
    constructor
    · intro hmem
      unfold imagesHandle
      rw [if_neg (by simp [hk]), href]
      dsimp only
      rw [if_neg (by simpa using hmem)]
    · intro hmem
      unfold imagesHandle
      rw [if_neg (by simp [hk]), href]
      dsimp only
      rw [if_pos (by simpa using hmem)]
      cases hp : parseDockerImageReference ref with
      | error e =>
        refine ⟨rfl, ?_, rfl⟩
        simp
      | ok parsed =>
        dsimp only
        by_cases hid : parsed.id = ""
        · rw [if_pos (by simp [hid]), if_neg (fun hc => hc.1 hid)]
          refine ⟨rfl, ?_, rfl⟩
          simp
        · by_cases hm : parsed.id ∈ st.processedStatusRefs
          · rw [if_neg (by simp [hid]; exact hm), if_pos ⟨hid, hm⟩]
            refine ⟨rfl, ?_, rfl⟩
            simp
          · rw [if_pos (by simp [hid]; exact hm), if_neg (fun hc => hm hc.2)]
            refine ⟨rfl, ?_, rfl⟩
            simp

/-- C3 counterexample: the first explicit import of
docker.io/library/fedora:f23 — whose canonical reference carries no
digest — adds one to the ImageStreamImages increment, where the claim
as stated expects the status side to be touched only for references
carrying a digest. -/
theorem imagesHandle_no_digest_counterexample :
    parseDockerImageReference "docker.io/fedora:f23" =
      .ok ⟨"docker.io", "", "fedora", "f23", ""⟩ ∧
    getImageReferenceForObjectReference "test" ⟨"DockerImage", "", "docker.io/library/fedora:f23"⟩ =
      .ok "docker.io/fedora:f23" ∧
    (imagesHandle "test" initImportState
        ⟨"DockerImage", "", "docker.io/library/fedora:f23"⟩).statusRefsIncrement = 1 ∧
    (1 : Int) ≠ 0 := by
  decide

/-- C3 witness: the amended theorem applied to a fresh digest-free
reference: the spec increment and the status increment both rise by
one. -/
theorem imagesHandle_step_witness :
    (imagesHandle "test" initImportState
        ⟨"DockerImage", "", "docker.io/library/fedora:f23"⟩).specRefsIncrement = 0 + 1 ∧
    (imagesHandle "test" initImportState
        ⟨"DockerImage", "", "docker.io/library/fedora:f23"⟩).statusRefsIncrement = 0 + 1 := by
  have h := ((imagesHandle_step_correct "test" initImportState
      ⟨"DockerImage", "", "docker.io/library/fedora:f23"⟩).2.2 "docker.io/fedora:f23"
      rfl (by decide)).2 (by decide)
  exact ⟨h.1, by rw [h.2.2]; decide⟩

theorem isPrefixOf_append_left : ∀ (l a b : List Char),
    l.isPrefixOf a = true → l.isPrefixOf (a ++ b) = true
  | [], _, _, _ => by simp [List.isPrefixOf]
  | c :: cs, [], b, h => by simp [List.isPrefixOf] at h
  | c :: cs, d :: ds, b, h => by
    simp only [List.cons_append, List.isPrefixOf] at h ⊢
    simp only [Bool.and_eq_true] at h ⊢
    exact ⟨h.1, isPrefixOf_append_left cs ds b h.2⟩

/-- C7: error characterisation of the newer-variant
GetImageReferenceForObjectReference.  For kind DockerImage it errs
exactly when the name fails to parse; for kind ImageStreamImage it
propagates a parse failure, errs with a message starting with
"missing id" when the parsed name carries no digest, and otherwise
returns the canonical reference with the empty namespace resolved first
from the object reference and then from the enclosing namespace; for
kind ImageStreamTag it errs exactly when the name fails to parse as
isName:tag (no tag, or a digest present) and otherwise resolves the
namespace the same way; every other kind errs with an unsupported-kind
message. -/
theorem getImageReferenceForObjectReference_error_cases (nsName : String)
    (o : ObjectReference) :
    (o.kind = "DockerImage" →
      ((∃ e, getImageReferenceForObjectReference nsName o = .error e) ↔
        (∃ e, parseDockerImageReference o.name = .error e))) ∧
    (o.kind = "ImageStreamImage" →
      (∀ e, parseDockerImageReference o.name = .error e →
        getImageReferenceForObjectReference nsName o = .error e) ∧
      (∀ parsed, parseDockerImageReference o.name = .ok parsed →
        (parsed.id = "" →
          ∃ e, getImageReferenceForObjectReference nsName o = .error e ∧
            "missing id".data.isPrefixOf e.data = true) ∧
        (parsed.id ≠ "" →
          getImageReferenceForObjectReference nsName o =
            .ok (daemonMinimal { parsed with ns :=
              if parsed.ns ≠ "" then parsed.ns
              else if o.ns ≠ "" then o.ns else nsName }).exact))) ∧
    (o.kind = "ImageStreamTag" →
      ((∃ e, getImageReferenceForObjectReference nsName o = .error e) ↔
        (∃ e, parseImageStreamTagName o.name = .error e)) ∧
      (∀ isName tag, parseImageStreamTagName o.name = .ok (isName, tag) →
        getImageReferenceForObjectReference nsName o =
          .ok (metaNamespaceKey (if o.ns.length > 0 then o.ns else nsName)
                (joinImageStreamTag isName tag)))) ∧
    (o.kind ≠ "DockerImage" → o.kind ≠ "ImageStreamImage" → o.kind ≠ "ImageStreamTag" →
      getImageReferenceForObjectReference nsName o =
        .error ("unsupported object reference kind " ++ o.kind)) := by
  refine ⟨?_, ?_, ?_, ?_⟩
  · intro hk
    unfold getImageReferenceForObjectReference
    rw [if_pos (by simp [hk])]
    cases hp : parseDockerImageReference o.name with
    | error e =>
      dsimp only
      simp
    | ok res =>
      dsimp only
      rw [if_neg (by simp [hk])]
      simp
  · intro hk
    constructor
    · intro e he
      unfold getImageReferenceForObjectReference
      rw [if_pos (by simp [hk]), he]
    · intro parsed hp
      constructor
      · intro hid
        refine ⟨"missing id in ImageStreamImage reference " ++ o.name, ?_, ?_⟩
        · unfold getImageReferenceForObjectReference
          rw [if_pos (by simp [hk]), hp]
          dsimp only
          rw [if_pos (by simp [hk])]
          simp [hid, apply_ite DockerImageReference.id]
        · have hd : ("missing id in ImageStreamImage reference " ++ o.name).data =
              "missing id in ImageStreamImage reference ".data ++ o.name.data := by
            simp
          rw [hd]
          exact isPrefixOf_append_left _ _ _ (by decide)
      · intro hid
        unfold getImageReferenceForObjectReference
        rw [if_pos (by simp [hk]), hp]
        dsimp only
        rw [if_pos (by simp [hk])]
        by_cases hns : parsed.ns = "" <;> by_cases hons : o.ns = "" <;>
          simp [hns, hons, hid, apply_ite]
  · intro hk
    have hnotImage : (o.kind == "ImageStreamImage" || o.kind == "DockerImage") = false := by
      simp [hk]
    constructor
    · unfold getImageReferenceForObjectReference
      rw [if_neg (by simp [hnotImage]), if_pos (by simp [hk])]
      cases hp : parseImageStreamTagName o.name with
      | error e =>
        dsimp only
        simp
      | ok pair =>
        cases pair with
        | mk isName tag =>
          dsimp only
          simp
    · intro isName tag hp
      unfold getImageReferenceForObjectReference
      rw [if_neg (by simp [hnotImage]), if_pos (by simp [hk]), hp]
  · intro h1 h2 h3
    unfold getImageReferenceForObjectReference
    rw [if_neg (by simp [h1, h2]), if_neg (by simp [h3])]

/-- C7 witness: an ImageStreamImage reference whose name parses but
carries no digest errs with a message starting with "missing id", and a
digest-carrying one resolves its namespace from the enclosing
namespace. -/
theorem getImageReferenceForObjectReference_error_cases_witness :
    (∃ e, getImageReferenceForObjectReference "encl" ⟨"ImageStreamImage", "", "is:tag"⟩ =
        .error e ∧ "missing id".data.isPrefixOf e.data = true) ∧
    getImageReferenceForObjectReference "encl" ⟨"ImageStreamImage", "", "is@sha256:0c"⟩ =
      .ok "encl/is@sha256:0c" := by
  constructor
  · exact ((getImageReferenceForObjectReference_error_cases "encl"
      ⟨"ImageStreamImage", "", "is:tag"⟩).2.1 rfl).2 ⟨"", "", "is", "tag", ""⟩
      (by decide) |>.1 rfl
  · have h := ((getImageReferenceForObjectReference_error_cases "encl"
      ⟨"ImageStreamImage", "", "is@sha256:0c"⟩).2.1 rfl).2 ⟨"", "", "is", "", "sha256:0c"⟩
      (by decide) |>.2 (by decide)
    exact h.trans (by decide)

theorem insertUnique_nodup {l : List String} (h : l.Nodup) (s : String) :
    (insertUnique l s).Nodup := by
  unfold insertUnique
  split
  · exact h
  · next hc =>
    exact List.nodup_cons.mpr ⟨fun hm => hc (containsTrueOfMem hm), h⟩

theorem gatherImagesFromImageStreamSpec_nodup (is : ImageStream) :
    (gatherImagesFromImageStreamSpec is).Nodup := by
  unfold gatherImagesFromImageStreamSpec
  refine foldlPreserves (P := fun l : List String => l.Nodup) ?_ _ [] List.nodup_nil
  intro a b ha
  dsimp only
  cases b.2.fromRef with
  | none => exact ha
  | some objRef =>
    dsimp only
    cases getImageReferenceForObjectReference is.ns objRef with
    | error e => exact ha
    | ok ref => exact insertUnique_nodup ha ref

theorem gatherImagesFromImageStreamStatus_nodup (is : ImageStream) :
    (gatherImagesFromImageStreamStatus is).Nodup := by
  unfold gatherImagesFromImageStreamStatus
  refine foldlPreserves (P := fun l : List String => l.Nodup) ?_ _ [] List.nodup_nil
  intro a b ha
  refine foldlPreserves (P := fun l : List String => l.Nodup) ?_ _ a ha
  intro a2 item ha2
  dsimp only
  split
  · exact ha2
  · exact insertUnique_nodup ha2 _

theorem walkEntries_characterisation (s t : List String) (hs : s.Nodup) (ht : t.Nodup) :
    ((s.map (fun r => (r, true, t.contains r)) ++
      (t.filter (fun r => !s.contains r)).map (fun r => (r, false, true))).map
        (fun e : String × Bool × Bool => e.1)).Nodup ∧
    (∀ r a b, (r, a, b) ∈ s.map (fun r => (r, true, t.contains r)) ++
        (t.filter (fun r => !s.contains r)).map (fun r => (r, false, true)) ↔
      (a = s.contains r ∧ b = t.contains r ∧ (a || b) = true)) := by
  constructor
  · have hkeys : (s.map (fun r => (r, true, t.contains r)) ++
        (t.filter (fun r => !s.contains r)).map (fun r => (r, false, true))).map
          (fun e : String × Bool × Bool => e.1) =
        s ++ t.filter (fun r => !s.contains r) := by
      simp [Function.comp_def]
    rw [hkeys]
    refine List.Nodup.append hs (ht.filter _) ?_
    intro a ha hb
    have hb' := List.of_mem_filter hb
    simp only [Bool.not_eq_true'] at hb'
    rw [containsTrueOfMem ha] at hb'
    exact Bool.true_eq_false.mp hb'
  · intro r a b
    constructor
    · intro hmem
      rcases List.mem_append.mp hmem with h | h
      · rcases List.mem_map.mp h with ⟨x, hx, hmeq⟩
        have h1 : x = r ∧ true = a ∧ t.contains x = b := by
          simpa [Prod.ext_iff] using hmeq
        obtain ⟨rfl, ha, hb⟩ := h1
        exact ⟨by rw [← ha, containsTrueOfMem hx], hb.symm, by rw [← ha]; rfl⟩
      · rcases List.mem_map.mp h with ⟨x, hx, hmeq⟩
        have h1 : x = r ∧ false = a ∧ true = b := by
          simpa [Prod.ext_iff] using hmeq
        obtain ⟨rfl, ha, hb⟩ := h1
        have hxt : x ∈ t := List.mem_of_mem_filter hx
        have hxs := List.of_mem_filter hx
        simp only [Bool.not_eq_true'] at hxs
        exact ⟨ha.symm.trans hxs.symm, hb.symm.trans (containsTrueOfMem hxt).symm,
          by rw [← hb]; simp⟩
    · rintro ⟨ha, hb, hab⟩
      by_cases hr : r ∈ s
      · have ha' : a = true := by rw [ha]; exact containsTrueOfMem hr
        refine List.mem_append.mpr (Or.inl ?_)
        refine List.mem_map.mpr ⟨r, hr, ?_⟩
        simp [ha', hb]
      · have ha' : a = false := by rw [ha]; exact containsFalseOfNotMem hr
        have hb' : b = true := by
          rw [ha'] at hab
          simpa using hab
        have hrt : r ∈ t := by
          have := hb'.symm.trans hb
          exact List.elem_iff.mp this.symm
        refine List.mem_append.mpr (Or.inr ?_)
        refine List.mem_map.mpr ⟨r, ?_, ?_⟩
        · exact List.mem_filter.mpr ⟨hrt, by simpa using hr⟩
        · simp [ha', hb']

/-- C4: the newer-variant walker ProcessImageStreamImages reports each
distinct canonical reference gathered from the stream exactly once (the
reported reference keys are duplicate-free), an entry for a reference
exists exactly when the reference is gathered from the spec or — unless
specOnly — from the status, its inSpec and inStatus flags equal the OR
of the sources the reference appears in, and with specOnly set no entry
ever carries inStatus true. -/
theorem processImageStreamImages_unique_refs (is : ImageStream) (specOnly : Bool) :
    ((processImageStreamImages is specOnly).map (fun e : String × Bool × Bool => e.1)).Nodup ∧
    (∀ r inSpec inStatus, (r, inSpec, inStatus) ∈ processImageStreamImages is specOnly ↔
      (inSpec = (gatherImagesFromImageStreamSpec is).contains r ∧
       inStatus = (!specOnly && (gatherImagesFromImageStreamStatus is).contains r) ∧
       (inSpec || inStatus) = true)) ∧
    (specOnly = true → ∀ e ∈ processImageStreamImages is specOnly, e.2.2 = false) := by
  have ht : (if specOnly then [] else gatherImagesFromImageStreamStatus is).Nodup := by
    cases specOnly
    · simpa using gatherImagesFromImageStreamStatus_nodup is
    · simp
  have hmain := walkEntries_characterisation (gatherImagesFromImageStreamSpec is)
    (if specOnly then [] else gatherImagesFromImageStreamStatus is)
    (gatherImagesFromImageStreamSpec_nodup is) ht
  have hent : processImageStreamImages is specOnly =
      (gatherImagesFromImageStreamSpec is).map
        (fun r => (r, true,
          (if specOnly then [] else gatherImagesFromImageStreamStatus is).contains r)) ++
      ((if specOnly then [] else gatherImagesFromImageStreamStatus is).filter
        (fun r => !(gatherImagesFromImageStreamSpec is).contains r)).map
          (fun r => (r, false, true)) := rfl
  have hbridge : ∀ r : String,
      (if specOnly then [] else gatherImagesFromImageStreamStatus is).contains r =
      (!specOnly && (gatherImagesFromImageStreamStatus is).contains r) := by
    intro r
    cases specOnly <;> simp
  refine ⟨by rw [hent]; exact hmain.1, ?_, ?_⟩
  · intro r a b
    rw [hent]
    rw [hmain.2 r a b, hbridge r]
  · intro hso e he
    obtain ⟨r, a, b⟩ := e
    have h := (hmain.2 r a b).mp (by rw [← hent]; exact he)
    have := h.2.1
    rw [hso] at this
    simpa using this

/-- C4 witness: the theorem applied to a concrete stream with specOnly
set: the fedora spec reference is reported, with inStatus false. -/
theorem processImageStreamImages_unique_refs_witness :
    ("docker.io/fedora", true, false) ∈ processImageStreamImages
      ⟨"test", "is", [("latest", ⟨"latest", some ⟨"DockerImage", "", "docker.io/library/fedora"⟩⟩)],
        [("latest", [⟨"172.30.12.34:5000/test/is@sha256:0d", "sha256:0d"⟩])]⟩ true ∧
    (("docker.io/fedora", true, false) : String × Bool × Bool).2.2 = false := by
  have h := processImageStreamImages_unique_refs
    ⟨"test", "is", [("latest", ⟨"latest", some ⟨"DockerImage", "", "docker.io/library/fedora"⟩⟩)],
      [("latest", [⟨"172.30.12.34:5000/test/is@sha256:0d", "sha256:0d"⟩])]⟩ true
  have hmem := (h.2.1 "docker.io/fedora" true false).mpr (by decide)
  exact ⟨hmem, h.2.2 rfl _ hmem⟩

/-- The entries of the limit list found to be exceeded by a usage list:
keys of b whose quantity is strictly below the looked-up usage. -/
def rlExceededKeys (a b : ResourceList) : List String :=
  (b.filter (fun kv =>
    match rlLookup a kv.1 with
    | some v => decide (kv.2 < v)
    | none => false)).map (fun kv => kv.1)

theorem rlLessThanOrEqual_aux (a : ResourceList) : ∀ (b : ResourceList)
    (acc : Bool × List String),
    b.foldl
      (fun acc kv =>
        match rlLookup a kv.1 with
        | some v => if kv.2 < v then (false, acc.2 ++ [kv.1]) else acc
        | none => acc) acc =
      ((acc.1 && (rlExceededKeys a b).isEmpty), acc.2 ++ rlExceededKeys a b) := by
  intro b
  induction b with
  | nil =>
    intro acc
    simp [rlExceededKeys]
  | cons kv rest ih =>
    intro acc
    rw [List.foldl_cons]
    cases hl : rlLookup a kv.1 with
    | none =>
      have hflt : rlExceededKeys a (kv :: rest) = rlExceededKeys a rest := by
        unfold rlExceededKeys
        rw [List.filter_cons_of_neg (by simp [hl])]
      rw [hflt]
      dsimp only
      exact ih acc
    | some v =>
      by_cases hlt : kv.2 < v
      · have hflt : rlExceededKeys a (kv :: rest) = kv.1 :: rlExceededKeys a rest := by
          unfold rlExceededKeys
          rw [List.filter_cons_of_pos (by simp [hl, hlt])]
          rfl
        rw [hflt]
        dsimp only
        rw [if_pos hlt, ih (false, acc.2 ++ [kv.1])]
        simp
      · have hflt : rlExceededKeys a (kv :: rest) = rlExceededKeys a rest := by
          unfold rlExceededKeys
          rw [List.filter_cons_of_neg (by simp [hl, hlt])]
        rw [hflt]
        dsimp only
        rw [if_neg hlt]
        exact ih acc

theorem rlLessThanOrEqual_closed_form (a b : ResourceList) :
    rlLessThanOrEqual a b = ((rlExceededKeys a b).isEmpty, rlExceededKeys a b) := by
  unfold rlLessThanOrEqual
  rw [rlLessThanOrEqual_aux a b (true, [])]
  simp

theorem rlExceededKeys_mem (a b : ResourceList) (r : String) :
    r ∈ rlExceededKeys a b ↔
      ∃ kv ∈ b, kv.1 = r ∧ ∃ v, rlLookup a kv.1 = some v ∧ kv.2 < v := by
  unfold rlExceededKeys
  constructor
  · intro h
    rcases List.mem_map.mp h with ⟨kv, hkv, hr⟩
    have hb := List.mem_of_mem_filter hkv
    have hpred := List.of_mem_filter hkv
    refine ⟨kv, hb, hr, ?_⟩
    cases hl : rlLookup a kv.1 with
    | none => rw [hl] at hpred; exact absurd hpred (by simp)
    | some v =>
      rw [hl] at hpred
      exact ⟨v, rfl, by simpa using hpred⟩
  · rintro ⟨kv, hkv, hr, v, hl, hlt⟩
    refine List.mem_map.mpr ⟨kv, ?_, hr⟩
    refine List.mem_filter.mpr ⟨hkv, ?_⟩
    rw [hl]
    simpa using hlt

theorem checkQuotaList_spec : ∀ rqs : List ResourceQuota,
    (checkQuotaList rqs = .allowed ↔
      ∀ rq ∈ rqs, rlExceededKeys (rqMaskedUsed rq) (rqMaskedHard rq) = []) ∧
    (∀ ds, checkQuotaList rqs = .accessDenied ds →
      ∃ rq ∈ rqs, rlExceededKeys (rqMaskedUsed rq) (rqMaskedHard rq) ≠ [] ∧
        ds = (rlExceededKeys (rqMaskedUsed rq) (rqMaskedHard rq)).map (rqDetailLine rq)) ∧
    (∀ e, checkQuotaList rqs ≠ .listError e) := by
  intro rqs
  induction rqs with
  | nil =>
    refine ⟨by simp [checkQuotaList], ?_, ?_⟩
    · intro ds hds
      exact absurd hds (by simp [checkQuotaList])
    · intro e
      simp [checkQuotaList]
  | cons rq rest ih =>
    have hstep : checkQuotaList (rq :: rest) =
        (if (rlExceededKeys (rqMaskedUsed rq) (rqMaskedHard rq)).isEmpty then
          checkQuotaList rest
        else .accessDenied ((rlExceededKeys (rqMaskedUsed rq) (rqMaskedHard rq)).map
          (rqDetailLine rq))) := by
      conv_lhs => unfold checkQuotaList
      rw [rlLessThanOrEqual_closed_form]
    by_cases hemp : rlExceededKeys (rqMaskedUsed rq) (rqMaskedHard rq) = []
    · rw [hstep, if_pos (by simp [hemp])]
      refine ⟨?_, ?_, ih.2.2⟩
      · rw [ih.1]
        constructor
        · intro h rq2 hrq2
          rcases List.mem_cons.mp hrq2 with rfl | h2
          · exact hemp
          · exact h rq2 h2
        · intro h rq2 hrq2
          exact h rq2 (List.mem_cons_of_mem rq hrq2)
      · intro ds hds
        rcases ih.2.1 ds hds with ⟨rq2, hrq2, hne, hdet⟩
        exact ⟨rq2, List.mem_cons_of_mem rq hrq2, hne, hdet⟩
    · rw [hstep, if_neg (by simpa using hemp)]
      refine ⟨?_, ?_, ?_⟩
      · constructor
        · intro h
          exact absurd h (by simp)
        · intro h
          exact absurd (h rq (List.mem_cons_self rq rest)) hemp
      · intro ds hds
        refine ⟨rq, List.mem_cons_self rq rest, hemp, ?_⟩
        injection hds with h
        exact h.symm
      · intro e
        simp

/-- C5: the registry quota check builds the probe usage of one
ImageStreamImages; over a successfully listed quota list it allows the
commit exactly when no quota has a masked entry of its hard limits
strictly exceeded by the masked sum of its observed usage and the
probe, it denies with AccessDenied otherwise — carrying one detail line
per exceeded resource built from its name, its masked hard cap and the
overage computed through quota subtraction — and it never reports a
listing failure; no quota object is modified (the check is a pure
function of the listed quotas). -/
theorem admitQuotas_probe_correct (rqs : List ResourceQuota) :
    probeUsage = [(resourceImageStreamImages, 1)] ∧
    (admitQuotas (.ok rqs) = .allowed ↔
      ∀ rq ∈ rqs, ¬ ∃ kv ∈ rqMaskedHard rq, ∃ v,
        rlLookup (rqMaskedUsed rq) kv.1 = some v ∧ kv.2 < v) ∧
    (∀ ds, admitQuotas (.ok rqs) = .accessDenied ds →
      (∃ rq ∈ rqs, (∃ kv ∈ rqMaskedHard rq, ∃ v,
          rlLookup (rqMaskedUsed rq) kv.1 = some v ∧ kv.2 < v) ∧
        ds = (rlLessThanOrEqual (rqMaskedUsed rq) (rqMaskedHard rq)).2.map (rqDetailLine rq) ∧
        ds ≠ [])) ∧
    (∀ e, admitQuotas (.ok rqs) ≠ .listError e) := by
  have hq : admitQuotas (.ok rqs) = checkQuotaList rqs := rfl
  have hspec := checkQuotaList_spec rqs
  have hbridge : ∀ rq : ResourceQuota,
      rlExceededKeys (rqMaskedUsed rq) (rqMaskedHard rq) = [] ↔
      ¬ ∃ kv ∈ rqMaskedHard rq, ∃ v,
        rlLookup (rqMaskedUsed rq) kv.1 = some v ∧ kv.2 < v := by
    intro rq
    rw [List.eq_nil_iff_forall_not_mem]
    constructor
    · rintro h ⟨kv, hkv, v, hl, hlt⟩
      exact h kv.1 ((rlExceededKeys_mem _ _ kv.1).mpr ⟨kv, hkv, rfl, v, hl, hlt⟩)
    · intro h r hr
      rcases (rlExceededKeys_mem _ _ r).mp hr with ⟨kv, hkv, hr1, v, hl, hlt⟩
      exact h ⟨kv, hkv, v, hl, hlt⟩
  refine ⟨rfl, ?_, ?_, ?_⟩
  · rw [hq, hspec.1]
    constructor
    · intro h rq hrq
      exact (hbridge rq).mp (h rq hrq)
    · intro h rq hrq
      exact (hbridge rq).mpr (h rq hrq)
  · intro ds hds
    rcases hspec.2.1 ds (hq ▸ hds) with ⟨rq, hrq, hne, hdet⟩
    refine ⟨rq, hrq, ?_, ?_, ?_⟩
    · by_contra hno
      exact hne ((hbridge rq).mpr hno)
    · rw [hdet, rlLessThanOrEqual_closed_form]
    · rw [hdet]
      simpa using hne
  · intro e
    rw [hq]
    exact hspec.2.2 e

/-- C5 witness: a quota with hard ImageStreamImages ten and used ten
denies the probe with the detail naming the resource, its cap and the
overage of one; the same quota with used nine allows it. -/
theorem admitQuotas_probe_correct_witness :
    (∃ rq ∈ [(⟨[(resourceImageStreamImages, 10)], [(resourceImageStreamImages, 10)]⟩ :
        ResourceQuota)], (∃ kv ∈ rqMaskedHard rq, ∃ v,
          rlLookup (rqMaskedUsed rq) kv.1 = some v ∧ kv.2 < v) ∧
      ["openshift.io/imagestreamimages limited to 10 by 1"] =
        (rlLessThanOrEqual (rqMaskedUsed rq) (rqMaskedHard rq)).2.map (rqDetailLine rq) ∧
      (["openshift.io/imagestreamimages limited to 10 by 1"] : List String) ≠ []) ∧
    admitQuotas (.ok [⟨[(resourceImageStreamImages, 10)], [(resourceImageStreamImages, 9)]⟩]) =
      .allowed := by
  constructor
  · exact (admitQuotas_probe_correct
      [⟨[(resourceImageStreamImages, 10)], [(resourceImageStreamImages, 10)]⟩]).2.2.1
      ["openshift.io/imagestreamimages limited to 10 by 1"] (by decide)
  · exact (admitQuotas_probe_correct
      [⟨[(resourceImageStreamImages, 10)], [(resourceImageStreamImages, 9)]⟩]).2.1.mpr
      (by decide)

/-- Nonnegativity of the four counters of a usage state. -/
def UsageStateNonneg (st : UsageState) : Prop :=
  0 ≤ st.specRefs ∧ 0 ≤ st.specRefsIncrement ∧ 0 ≤ st.statusRefs ∧ 0 ≤ st.statusRefsIncrement

theorem usageStateNonneg_baseline {st : UsageState} (h : UsageStateNonneg st)
    (e : String × Bool × Bool) : UsageStateNonneg (baselineHandleRef st e) := by
  obtain ⟨h1, h2, h3, h4⟩ := h
  unfold UsageStateNonneg baselineHandleRef
  dsimp only
  split <;> split <;> (try dsimp only) <;> omega

theorem usageStateNonneg_candidate {st : UsageState} (h : UsageStateNonneg st)
    (e : String × Bool × Bool) : UsageStateNonneg (candidateHandleRef st e) := by
  obtain ⟨h1, h2, h3, h4⟩ := h
  unfold UsageStateNonneg candidateHandleRef
  dsimp only
  split <;> split <;> (try split) <;> (try split) <;> (try split) <;>
    (try dsimp only) <;> omega

theorem usageStateNonneg_newTag {st : UsageState} (h : UsageStateNonneg st) (tag : String) :
    UsageStateNonneg (foldNewImageStreamTag st tag) := by
  obtain ⟨h1, h2, h3, h4⟩ := h
  unfold UsageStateNonneg foldNewImageStreamTag
  refine ⟨?_, ?_, ?_, ?_⟩ <;>
    (split <;> (try split) <;> (try split) <;>
      (try simp only [apply_ite UsageState.specRefs, apply_ite UsageState.specRefsIncrement,
        apply_ite UsageState.statusRefs, apply_ite UsageState.statusRefsIncrement]) <;>
      (try split) <;> omega)

theorem usageStateNonneg_newImage {st : UsageState} (h : UsageStateNonneg st) (img : String) :
    UsageStateNonneg (foldNewImageStreamImage st img) := by
  obtain ⟨h1, h2, h3, h4⟩ := h
  unfold UsageStateNonneg foldNewImageStreamImage
  refine ⟨?_, ?_, ?_, ?_⟩ <;> (split <;> (try dsimp only) <;> omega)

theorem getProjectImagesUsageIncrement_nonneg (iss : List ImageStream)
    (isOpt : Option ImageStream) (t i : String) :
    UsageStateNonneg (getProjectImagesUsageIncrement iss isOpt t i) := by
  have hbase : UsageStateNonneg (projectBaselineState iss isOpt) := by
    unfold projectBaselineState
    refine foldlPreserves (P := UsageStateNonneg) ?_ iss initUsageState
      ⟨le_refl 0, le_refl 0, le_refl 0, le_refl 0⟩
    intro a b hab
    cases isOpt with
    | none =>
      dsimp only
      exact foldlPreserves (P := UsageStateNonneg) (f := baselineHandleRef)
        (fun a e ha => usageStateNonneg_baseline ha e) _ a hab
    | some j =>
      dsimp only
      by_cases hb : (b.name == j.name) = true
      · rw [if_pos hb]
        exact hab
      · rw [if_neg hb]
        exact foldlPreserves (P := UsageStateNonneg) (f := baselineHandleRef)
          (fun a e ha => usageStateNonneg_baseline ha e) _ a hab
  unfold getProjectImagesUsageIncrement
  refine usageStateNonneg_newImage (usageStateNonneg_newTag ?_ t) i
  cases isOpt with
  | none => exact hbase
  | some j =>
    dsimp only
    exact foldlPreserves (P := UsageStateNonneg) (f := candidateHandleRef)
      (fun a e ha => usageStateNonneg_candidate ha e) _ _ hbase

/-- Nonnegativity of the two increments of the import computer state. -/
def ImportStateNonneg (st : ImportState) : Prop :=
  0 ≤ st.specRefsIncrement ∧ 0 ≤ st.statusRefsIncrement

theorem importStateNonneg_preload {st : ImportState} (h : ImportStateNonneg st)
    (e : String × Bool × Bool) : ImportStateNonneg (importPreloadHandle st e) := by
  obtain ⟨h1, h2⟩ := h
  unfold ImportStateNonneg importPreloadHandle
  dsimp only
  refine ⟨?_, ?_⟩ <;> (split <;> split <;> (try dsimp only) <;> omega)

theorem importStateNonneg_images {st : ImportState} (h : ImportStateNonneg st)
    (nsName : String) (f : ObjectReference) : ImportStateNonneg (imagesHandle nsName st f) := by
  obtain ⟨h1, h2⟩ := h
  unfold ImportStateNonneg imagesHandle
  refine ⟨?_, ?_⟩ <;>
    (split <;> (try split) <;> (try split) <;> (try split) <;>
      (try simp only [apply_ite ImportState.specRefsIncrement,
        apply_ite ImportState.statusRefsIncrement]) <;>
      (try split) <;> omega)

theorem getRepositoryUsageIncrement_nonneg (maxTags : Int) (hmax : 0 ≤ maxTags)
    (refs : List String) (nsName : String) (repo : Option ObjectReference) :
    0 ≤ (getRepositoryUsageIncrement maxTags refs nsName repo).imageStreamTags ∧
    0 ≤ (getRepositoryUsageIncrement maxTags refs nsName repo).imageStreamImages := by
  unfold getRepositoryUsageIncrement
  cases repo with
  | none => exact ⟨le_refl 0, le_refl 0⟩
  | some fromRef =>
    dsimp only
    split
    · exact ⟨le_refl 0, le_refl 0⟩
    · cases getImageReferenceForObjectReference nsName fromRef with
      | error e => exact ⟨le_refl 0, le_refl 0⟩
      | ok repoRef =>
        dsimp only
        rw [repoOverlapLoop_closed_form repoRef refs maxTags hmax]
        exact ⟨le_max_left 0 _, le_max_left 0 _⟩

theorem oldGetProjectImagesUsageIncrement_nonneg (processSpec : Bool)
    (iss : List ImageStream) (isOpt : Option ImageStream) (ref : String) :
    0 ≤ (oldGetProjectImagesUsageIncrement processSpec iss isOpt ref).1 ∧
    0 ≤ (oldGetProjectImagesUsageIncrement processSpec iss isOpt ref).2 := by
  have hstep : ∀ (l : List String) (p : List String × Int), 0 ≤ p.2 →
      0 ≤ (l.foldl (fun (p : List String × Int) ref =>
        if p.1.contains ref then p else (ref :: p.1, p.2 + 1)) p).2 := by
    intro l
    refine foldlPreserves (P := fun p : List String × Int => 0 ≤ p.2) ?_ l
    intro a b ha
    dsimp only
    split
    · exact ha
    · dsimp only
      omega
  have hlast : ∀ (processed : List String) (inc : Int), 0 ≤ inc →
      0 ≤ oldImageReferenceFold processed inc ref := by
    intro processed inc h
    unfold oldImageReferenceFold
    split <;> (try split) <;> (try split) <;> omega
  unfold oldGetProjectImagesUsageIncrement
  cases isOpt with
  | none =>
    dsimp only
    exact ⟨by omega, hlast _ 0 (le_refl 0)⟩
  | some i =>
    dsimp only
    exact ⟨by omega, hlast _ _ (hstep _ _ (le_refl 0))⟩

/-- C8: assuming a nonnegative configured maximum of bulk imports per
repository, every quantity the usage and increment computations report
is nonnegative: the four counters of the newer-variant
GetProjectImagesUsageIncrement, both resources of the
image-stream-import evaluator's usage, both results of the
older-variant GetProjectImagesUsageIncrement, and every value of the
image-stream-mapping evaluator's usage list. -/
theorem quota_usage_never_negative :
    (∀ (iss : List ImageStream) (isOpt : Option ImageStream) (t i : String),
      0 ≤ (getProjectImagesUsageIncrement iss isOpt t i).specRefs ∧
      0 ≤ (getProjectImagesUsageIncrement iss isOpt t i).specRefsIncrement ∧
      0 ≤ (getProjectImagesUsageIncrement iss isOpt t i).statusRefs ∧
      0 ≤ (getProjectImagesUsageIncrement iss isOpt t i).statusRefsIncrement) ∧
    (∀ (maxTags : Int) (listResult : Except ListErr (List ImageStream))
        (isi : ImageStreamImport), 0 ≤ maxTags →
      0 ≤ (imageStreamImportUsage maxTags listResult isi).imageStreamTags ∧
      0 ≤ (imageStreamImportUsage maxTags listResult isi).imageStreamImages) ∧
    (∀ (processSpec : Bool) (iss : List ImageStream) (isOpt : Option ImageStream)
        (ref : String),
      0 ≤ (oldGetProjectImagesUsageIncrement processSpec iss isOpt ref).1 ∧
      0 ≤ (oldGetProjectImagesUsageIncrement processSpec iss isOpt ref).2) ∧
    (∀ (streamGet : Except GetErr Unit) (listResult : Except ListErr (List ImageStream))
        (ref r : String) (v : Int),
      (r, v) ∈ imageStreamMappingUsage streamGet listResult ref → 0 ≤ v) := by
  refine ⟨?_, ?_, oldGetProjectImagesUsageIncrement_nonneg, ?_⟩
  · intro iss isOpt t i
    exact getProjectImagesUsageIncrement_nonneg iss isOpt t i
  · intro maxTags listResult isi hmax
    unfold imageStreamImportUsage
    split
    · exact ⟨le_refl 0, le_refl 0⟩
    · cases listResult with
      | error e => exact ⟨le_refl 0, le_refl 0⟩
      | ok iss =>
        dsimp only
        have hst : ImportStateNonneg (isi.images.foldl (imagesHandle isi.ns)
            (iss.foldl (fun st s =>
              (processImageStreamImages s false).foldl importPreloadHandle st)
              initImportState)) := by
          refine foldlPreserves (P := ImportStateNonneg)
            (fun a b ha => importStateNonneg_images ha isi.ns b) isi.images _ ?_
          refine foldlPreserves (P := ImportStateNonneg) ?_ iss initImportState
            ⟨le_refl 0, le_refl 0⟩
          intro a b ha
          exact foldlPreserves (P := ImportStateNonneg) (f := importPreloadHandle)
            (fun a e ha => importStateNonneg_preload ha e) _ a ha
        have hrepo := getRepositoryUsageIncrement_nonneg maxTags hmax
          (isi.images.foldl (imagesHandle isi.ns)
            (iss.foldl (fun st s =>
              (processImageStreamImages s false).foldl importPreloadHandle st)
              initImportState)).processedSpecRefs isi.ns isi.repository
        obtain ⟨hs1, hs2⟩ := hst
        obtain ⟨hr1, hr2⟩ := hrepo
        exact ⟨by omega, by omega⟩
  · intro streamGet listResult ref r v hmem
    unfold imageStreamMappingUsage at hmem
    cases streamGet with
    | error e =>
      simp only [List.mem_singleton, Prod.mk.injEq] at hmem
      omega
    | ok u =>
      cases listResult with
      | error e => exact absurd hmem (by simp)
      | ok iss =>
        simp only [List.mem_singleton, Prod.mk.injEq] at hmem
        have := (oldGetProjectImagesUsageIncrement_nonneg false iss none ref).2
        omega

/-- C8 witness: the nonnegativity theorem applied at concrete inputs,
discharging the nonnegative-maximum hypothesis at five. -/
theorem quota_usage_never_negative_witness :
    0 ≤ (imageStreamImportUsage 5 (.ok [])
      ⟨"test", "is", true, [], some ⟨"DockerImage", "", "docker.io/fedora"⟩⟩).imageStreamTags ∧
    0 ≤ (imageStreamImportUsage 5 (.ok [])
      ⟨"test", "is", true, [], some ⟨"DockerImage", "", "docker.io/fedora"⟩⟩).imageStreamImages ∧
    0 ≤ (getProjectImagesUsageIncrement [] none "docker.io/fedora" "").specRefsIncrement :=
  ⟨(quota_usage_never_negative.2.1 5 (.ok [])
      ⟨"test", "is", true, [], some ⟨"DockerImage", "", "docker.io/fedora"⟩⟩ (by decide)).1,
   (quota_usage_never_negative.2.1 5 (.ok [])
      ⟨"test", "is", true, [], some ⟨"DockerImage", "", "docker.io/fedora"⟩⟩ (by decide)).2,
   (quota_usage_never_negative.1 [] none "docker.io/fedora" "").2.1⟩
